import Mathlib

/-!
Verification development for the arguflow/arguflow repository.

Part 1 models the pdf2md supervisor/worker job pipeline.  The repository
ships the binaries `supervisor-worker` and `chunk-worker` (declared in
`pdf2md/server/Cargo.toml`), but their Rust sources are not part of the
available tree, so the pipeline is modelled from the specification text
(job/task state machines, lease protocol, reconcile sweep, assembly).

Part 2 embeds two source files that are present:
  * `jest-tests/scripts/traverse_and_upload.js` (`convertAndUpload`),
  * `frontends/dashboard/src/analytics/utils/formatDate.ts`
    (`parseCustomDateString`).
-/

namespace Pdf2Md

/-- Modelled from the spec: Job `status` values
`Queued, Splitting, Processing, Assembling, Completed, Failed` (section 3). -/
inductive JobStatus where
  | Queued
  | Splitting
  | Processing
  | Assembling
  | Completed
  | Failed
  deriving DecidableEq, Repr

/-- Modelled from the spec: PageTask `status` values
`Pending, Leased, Done, Failed` (section 3). -/
inductive TaskStatus where
  | Pending
  | Leased
  | Done
  | Failed
  deriving DecidableEq, Repr

/-- Modelled from the spec: the error taxonomy of section 7
(`InvalidInput`, `SplitError`, `ExtractError`, `PartialFailure`,
`ConsistencyError`). -/
inductive PipelineError where
  | InvalidInput
  | SplitError
  | ExtractError
  | PartialFailure
  | ConsistencyError
  deriving DecidableEq, Repr

/-- Modelled from the spec: a Lease record `task_id, worker_id, acquired_at,
ttl` (section 3); the task id is implicit because the lease is stored on the
task row itself.  Times are abstract natural-number instants. -/
structure Lease where
  worker_id : Nat
  acquired_at : Nat
  ttl : Nat
  deriving DecidableEq, Repr

/-- Modelled from the spec: a PageTask row (section 3): `page_number`
(0-indexed), `status`, `attempt_count`, `max_attempts`, `image_ref`,
`result_ref` or `error` set on terminal status, and the current lease record
held by the Queue/Lease Store for this task (if any). -/
structure PageTask where
  page_number : Nat
  status : TaskStatus
  attempt_count : Nat
  max_attempts : Nat
  image_ref : String
  result_ref : Option String
  error : Option PipelineError
  lease : Option Lease
  deriving DecidableEq, Repr

/-- Modelled from the spec: the worker currently recorded by the Queue/Lease
Store as owning the task, if any. -/
def leaseOwner (t : PageTask) : Option Nat :=
  t.lease.map (fun l => l.worker_id)

/-- Modelled from the spec: a lease whose TTL has elapsed at instant `now`
(`acquired_at + ttl` has passed); a Leased task with no lease record is
treated as expired. -/
def leaseExpired (now : Nat) (t : PageTask) : Bool :=
  match t.lease with
  | some l => decide (l.acquired_at + l.ttl ≤ now)
  | none => true

/-- Modelled from the spec: a task in a terminal state (`Done` or `Failed`). -/
def taskTerminal (t : PageTask) : Bool :=
  t.status = TaskStatus.Done ∨ t.status = TaskStatus.Failed

/-- Modelled from the spec: `lease_next` (section 4.2 step 1): the Queue/Lease
Store atomically marks a Pending task `Leased` and records a Lease with the
given TTL; a task that is not Pending cannot be leased. -/
def leaseTask (w now ttl : Nat) (t : PageTask) : PageTask :=
  if t.status = TaskStatus.Pending then
    { t with status := TaskStatus.Leased, lease := some ⟨w, now, ttl⟩ }
  else t

/-- Modelled from the spec: `heartbeat` (section 4.2 step 2): the worker
extends its own lease TTL, provided it still holds the lease; if the lease
was reassigned the renewal is refused and the task row is untouched. -/
def heartbeatTask (w now ttl : Nat) (t : PageTask) : PageTask :=
  if t.status = TaskStatus.Leased ∧ leaseOwner t = some w then
    { t with lease := some ⟨w, now, ttl⟩ }
  else t

/-- Modelled from the spec: reconcile step (a) (section 4.1): any task whose
lease has expired is returned to `Pending` and re-enqueued, incrementing
nothing until actually re-leased. -/
def reclaimTask (now : Nat) (t : PageTask) : PageTask :=
  if t.status = TaskStatus.Leased ∧ leaseExpired now t then
    { t with status := TaskStatus.Pending, lease := none }
  else t

/-- Modelled from the spec: the successful write of section 4.2 step 3 —
write the Markdown fragment to `result_ref`, set the task `Done` and release
the lease — guarded by the lease-ownership check of section 4.2: a worker
verifies it still owns the lease immediately before any state-mutating
write, and a write without ownership is rejected. -/
def completeTask (w : Nat) (frag : String) (t : PageTask) : PageTask :=
  if t.status = TaskStatus.Leased ∧ leaseOwner t = some w then
    { t with status := TaskStatus.Done, result_ref := some frag, lease := none }
  else t

/-- Modelled from the spec: the extractor-failure write of section 4.2 step 4
— increment `attempt_count`; if still `< max_attempts`, release the task
back to `Pending`, else set `Failed` permanently with the typed error —
guarded by the same lease-ownership check as every state-mutating write. -/
def failTask (w : Nat) (e : PipelineError) (t : PageTask) : PageTask :=
  if t.status = TaskStatus.Leased ∧ leaseOwner t = some w then
    let n := t.attempt_count + 1
    if n < t.max_attempts then
      { t with status := TaskStatus.Pending, attempt_count := n, lease := none }
    else
      { t with status := TaskStatus.Failed, attempt_count := n,
               error := some e, lease := none }
  else t

/-- Modelled from the spec: a per-page Markdown fragment of the `JobResult`,
carrying the page it came from (section 3). -/
structure Fragment where
  page_number : Nat
  text : String
  deriving DecidableEq, Repr

/-- Modelled from the spec: a Job row (section 3): `status`, `page_count`
(0 before splitting completes), the Job-level error if any, the assembled
result once Completed, the persisted "callback fired" one-shot flag, and the
Job's PageTask rows. -/
structure Job where
  status : JobStatus
  page_count : Nat
  tasks : List PageTask
  result : Option (List Fragment)
  error : Option PipelineError
  callback_fired : Bool
  deriving DecidableEq, Repr

/-- Modelled from the spec: `submit` (section 4.1) creates a Job in `Queued`
with no tasks, no result and the callback flag unset. -/
def submitJob : Job :=
  { status := JobStatus.Queued, page_count := 0, tasks := [],
    result := none, error := none, callback_fired := false }

/-- Modelled from the spec: the first transition of `split` (section 4.1):
`Queued -> Splitting`; rendering happens while the Job is in `Splitting`. -/
def beginSplit (j : Job) : Job :=
  if j.status = JobStatus.Queued then { j with status := JobStatus.Splitting } else j

/-- Modelled from the spec: a fresh `Pending` PageTask row created by
splitting, holding the object-store key of its rendered page image. -/
def mkTask (maxAtt page : Nat) (img : String) : PageTask :=
  { page_number := page, status := TaskStatus.Pending, attempt_count := 0,
    max_attempts := maxAtt, image_ref := img, result_ref := none,
    error := none, lease := none }

/-- Modelled from the spec: the completion of `split` (section 4.1): on
success (`some` non-empty list of rendered page images) create one `Pending`
PageTask per page and transition to `Processing`; if splitting fails —
corrupt PDF (`none`) or zero pages — the Job goes directly to `Failed` with
a `SplitError` and no PageTask is ever created. -/
def finishSplit (maxAtt : Nat) (pages : Option (List String)) (j : Job) : Job :=
  if j.status = JobStatus.Splitting then
    match pages with
    | none =>
        { j with status := JobStatus.Failed, error := some PipelineError.SplitError }
    | some imgs =>
        if imgs.length = 0 then
          { j with status := JobStatus.Failed, error := some PipelineError.SplitError }
        else
          { j with status := JobStatus.Processing, page_count := imgs.length,
                   tasks := imgs.enum.map (fun p => mkTask maxAtt p.1 p.2) }
  else j

/-- Modelled from the spec: whether the fraction of permanently `Failed`
tasks exceeds the configured threshold (section 4.1 (c)); the threshold is a
percentage and "exceeds" is strict. -/
def exceedsThreshold (thresholdPct : Nat) (ts : List PageTask) : Bool :=
  decide ((ts.filter (fun t => t.status = TaskStatus.Failed)).length * 100
            > thresholdPct * ts.length)

/-- Modelled from the spec: assembly over a list of page numbers (section
4.4): for each page, in `page_number` order, look the page's task up; a page
with no terminal task is a fatal consistency error (`none`), a `Done` task
contributes its fragment, and a permanently `Failed` task contributes no
fragment (its per-page error stays recorded on the task). -/
def assemblePages (ts : List PageTask) : List Nat → Option (List Fragment)
  | [] => some []
  | i :: rest =>
    match ts.find? (fun t => t.page_number = i) with
    | none => none
    | some t =>
      match t.status with
      | TaskStatus.Done =>
          match t.result_ref with
          | some frag => (assemblePages ts rest).map (fun l => ⟨i, frag⟩ :: l)
          | none => none
      | TaskStatus.Failed => assemblePages ts rest
      | _ => none

/-- Modelled from the spec: `JobResult` assembly (section 4.4) — a pure
function of a Job's PageTasks that builds the final document by ordering
fragments by `page_number` over pages `0 .. page_count - 1`. -/
def assemble (page_count : Nat) (ts : List PageTask) : Option (List Fragment) :=
  assemblePages ts (List.range page_count)

/-- Modelled from the spec: whether the task owning a given page (the first
task row with that `page_number`) completed successfully. -/
def isDonePage (ts : List PageTask) (i : Nat) : Bool :=
  match ts.find? (fun t => t.page_number = i) with
  | some t => t.status = TaskStatus.Done
  | none => false

/-- Modelled from the spec: `reconcile` (section 4.1) — idempotent, safely
re-runnable at any time; returns the updated Job together with whether the
completion callback was invoked by this run.  (a) expired leases are
reclaimed; (c) if the fraction of permanently Failed tasks exceeds the
threshold the Job fails with `PartialFailure`, short-circuiting further
waiting; (b) once every task is terminal the result is assembled (passing
transiently through `Assembling`) and the Job completes, invoking the
callback exactly once, guarded by the persisted checked-and-set
`callback_fired` flag.  On an already `Completed` Job the flag guard alone
decides whether the callback fires; a `Failed` Job is left alone; a Job
before `Processing` has no tasks to scan. -/
def reconcile (now thresholdPct : Nat) (j : Job) : Job × Bool :=
  match j.status with
  | JobStatus.Failed => (j, false)
  | JobStatus.Queued => (j, false)
  | JobStatus.Splitting => (j, false)
  | JobStatus.Completed =>
      if j.callback_fired then (j, false)
      else ({ j with callback_fired := true }, true)
  | _ =>
      let ts := j.tasks.map (reclaimTask now)
      if exceedsThreshold thresholdPct ts then
        ({ j with tasks := ts, status := JobStatus.Failed,
                  error := some PipelineError.PartialFailure }, false)
      else if ts.all taskTerminal then
        match assemble j.page_count ts with
        | some frags =>
            ({ j with tasks := ts, status := JobStatus.Completed,
                      result := some frags, callback_fired := true },
             !j.callback_fired)
        | none =>
            ({ j with tasks := ts, status := JobStatus.Failed,
                      error := some PipelineError.ConsistencyError }, false)
      else ({ j with tasks := ts }, false)

/-- Modelled from the spec: Job-level cancellation (section 5): an external
cancel flag checked during reconcile short-circuits a non-terminal Job to
`Failed`; terminal Jobs are unaffected. -/
def cancelJob (j : Job) : Job :=
  if j.status = JobStatus.Completed ∨ j.status = JobStatus.Failed then j
  else { j with status := JobStatus.Failed }

/-- Modelled from the spec: a terminal Job status (section 7: a Job is either
not-yet-done or in one of the defined terminal states). -/
def jobTerminal (s : JobStatus) : Bool :=
  s = JobStatus.Completed ∨ s = JobStatus.Failed

/-- Modelled from the spec: the position of a status in the listed order
`Queued, Splitting, Processing, Assembling, Completed` (section 3 invariant);
`Failed` is placed last so that the rank never decreases along any
transition. -/
def statusRank : JobStatus → Nat
  | JobStatus.Queued => 0
  | JobStatus.Splitting => 1
  | JobStatus.Processing => 2
  | JobStatus.Assembling => 3
  | JobStatus.Completed => 4
  | JobStatus.Failed => 5

/-- Modelled from the spec: one Queue/Lease Store step on a single task row:
lease acquisition, heartbeat renewal, reconcile's lease reclamation, or one of
the two worker writes (success and extractor failure). -/
inductive TaskStep : PageTask → PageTask → Prop where
  | lease (w now ttl : Nat) (t : PageTask) : TaskStep t (leaseTask w now ttl t)
  | heartbeat (w now ttl : Nat) (t : PageTask) : TaskStep t (heartbeatTask w now ttl t)
  | reclaim (now : Nat) (t : PageTask) : TaskStep t (reclaimTask now t)
  | complete (w : Nat) (frag : String) (t : PageTask) : TaskStep t (completeTask w frag t)
  | fail (w : Nat) (e : PipelineError) (t : PageTask) : TaskStep t (failTask w e t)

/-- Modelled from the spec: a task state reachable from another by any
sequence of Queue/Lease Store steps. -/
def ReachableTask : PageTask → PageTask → Prop :=
  Relation.ReflTransGen TaskStep

/-- Modelled from the spec: one Supervisor operation on a Job record — the
two halves of `split`, a `reconcile` sweep tick, or cancellation. -/
inductive JobStep : Job → Job → Prop where
  | splitStart (j : Job) : JobStep j (beginSplit j)
  | splitFinish (maxAtt : Nat) (pages : Option (List String)) (j : Job) :
      JobStep j (finishSplit maxAtt pages j)
  | sweep (now thr : Nat) (j : Job) : JobStep j (reconcile now thr j).1
  | cancel (j : Job) : JobStep j (cancelJob j)

/-- Modelled from the spec: a sequence of `reconcile` invocations (each with
its own instant and threshold), returning the final Job and the total number
of completion-callback invocations along the way. -/
def reconcileRun (j : Job) : List (Nat × Nat) → Job × Nat
  | [] => (j, 0)
  | p :: ps =>
    let r := reconcile p.1 p.2 j
    let rest := reconcileRun r.1 ps
    (rest.1, (if r.2 then 1 else 0) + rest.2)

/-- Modelled from the spec: the persisted `page_tasks` table is keyed by
`(JobId, page_number)`; applying a worker operation to the task of one page
updates that row in place. -/
def onPage (p : Nat) (f : PageTask → PageTask) (j : Job) : Job :=
  { j with tasks := j.tasks.map (fun t => if t.page_number = p then f t else t) }

/-- Modelled from the spec: one full re-lease-and-process cycle of the Chunk
Worker loop on a re-enqueued task: if the task is `Pending` a worker leases
it and the extractor either succeeds (`true`) or fails (`false`); a task
that is not `Pending` is left alone. -/
def stepAttempt (o : Bool) (t : PageTask) : PageTask :=
  if t.status = TaskStatus.Pending then
    if o then completeTask 0 "fragment" (leaseTask 0 0 1 t)
    else failTask 0 PipelineError.ExtractError (leaseTask 0 0 1 t)
  else t

/-- Modelled from the spec: a fair run of the worker pool against one task —
each element of `outs` is the extractor outcome of one processing attempt. -/
def runAttempts (outs : List Bool) (t : PageTask) : PageTask :=
  outs.foldl (fun a o => stepAttempt o a) t

/-- Modelled from the spec: a freshly split 5-page Job with
`max_attempts = 3` (the common setup of Scenarios B and C, section 8). -/
def scenarioSplit5 : Job :=
  finishSplit 3 (some ["i0", "i1", "i2", "i3", "i4"]) (beginSplit submitJob)

/-- Modelled from the spec: a successful worker pass over one page: lease,
extract, write the fragment. -/
def okPass (w now : Nat) (frag : String) (t : PageTask) : PageTask :=
  completeTask w frag (leaseTask w now 60 t)

/-- Modelled from the spec: a failing worker pass over one page: lease,
extractor failure, failure write. -/
def koPass (w now : Nat) (t : PageTask) : PageTask :=
  failTask w PipelineError.ExtractError (leaseTask w now 60 t)

/-- Modelled from the spec: Scenario B (section 8): a 5-page Job where page 3
fails extraction 3 times (`max_attempts = 3`) and the other four pages
succeed, with completions arriving out of page order. -/
def scenarioB : Job :=
  onPage 4 (okPass 2 50 "m4")
    (onPage 3 (koPass 3 45)
      (onPage 3 (koPass 2 35)
        (onPage 3 (koPass 1 25)
          (onPage 2 (okPass 1 30 "m2")
            (onPage 1 (okPass 2 20 "m1")
              (onPage 0 (okPass 1 10 "m0") scenarioSplit5))))))

/-- Modelled from the spec: three consecutive failing passes over one page
(driving the page to permanent failure when `max_attempts = 3`). -/
def failPage (p : Nat) (j : Job) : Job :=
  onPage p (koPass 3 45) (onPage p (koPass 2 35) (onPage p (koPass 1 25) j))

/-- Modelled from the spec: Scenario C (section 8): same 5-page Job but 4 of
the 5 pages fail permanently. -/
def scenarioC : Job :=
  failPage 4 (failPage 3 (failPage 2 (failPage 1
    (onPage 0 (okPass 1 10 "m0") scenarioSplit5))))

/-- Modelled from the spec: Scenario A (section 8): a 3-page Job whose three
pages all extract successfully, completions out of page order. -/
def scenarioA : Job :=
  onPage 1 (okPass 2 30 "a1")
    (onPage 0 (okPass 1 20 "a0")
      (onPage 2 (okPass 3 10 "a2")
        (finishSplit 3 (some ["p0", "p1", "p2"]) (beginSplit submitJob))))

/-- C7: Job status is monotone along every pipeline operation: unless the
step is the one-step escalation to `Failed`, the status rank (in the order
Queued, Splitting, Processing, Assembling, Completed) never decreases; a
terminal status (Completed or Failed) is never left; and from any
non-terminal status, `Failed` is reachable in a single step (cancellation
during reconcile). -/
theorem status_monotonic (j j' : Job) (h : JobStep j j') :
    (j'.status ≠ JobStatus.Failed → statusRank j.status ≤ statusRank j'.status)
    ∧ (jobTerminal j.status = true → j'.status = j.status)
    ∧ (jobTerminal j.status = false →
        JobStep j (cancelJob j) ∧ (cancelJob j).status = JobStatus.Failed) := by
  have hcancel : jobTerminal j.status = false →
      JobStep j (cancelJob j) ∧ (cancelJob j).status = JobStatus.Failed := by
    intro hnt
    have hor : ¬ (j.status = JobStatus.Completed ∨ j.status = JobStatus.Failed) := by
      simpa [jobTerminal] using hnt
    exact ⟨JobStep.cancel j, by simp [cancelJob, hor]⟩
  have hmain : (j'.status ≠ JobStatus.Failed → statusRank j.status ≤ statusRank j'.status)
      ∧ (jobTerminal j.status = true → j'.status = j.status) := by
    cases h with
    | splitStart s =>
      by_cases hq : j.status = JobStatus.Queued
      · constructor
        · intro _; simp [beginSplit, hq, statusRank]
        · intro hterm; rw [hq] at hterm; simp [jobTerminal] at hterm
      · simp [beginSplit, hq]
    | splitFinish maxAtt pages s =>
      by_cases hsp : j.status = JobStatus.Splitting
      · cases pages with
        | none =>
          simp only [finishSplit, if_pos hsp]
          constructor
          · intro hne; simp at hne
          · intro hterm; rw [hsp] at hterm; simp [jobTerminal] at hterm
        | some imgs =>
          by_cases hz : imgs.length = 0
          · simp only [finishSplit, if_pos hsp, hz, if_true]
            constructor
            · intro hne; simp at hne
            · intro hterm; rw [hsp] at hterm; simp [jobTerminal] at hterm
          · simp only [finishSplit, if_pos hsp, hz, if_false]
            constructor
            · intro _; simp [hsp, statusRank]
            · intro hterm; rw [hsp] at hterm; simp [jobTerminal] at hterm
      · simp [finishSplit, hsp]
    | sweep now thr s =>
      cases hs : j.status with
      | Queued => simp [reconcile, hs]
      | Splitting => simp [reconcile, hs]
      | Failed => simp [reconcile, hs]
      | Completed =>
        simp only [reconcile, hs]
        constructor
        · intro _; split <;> simp [hs, statusRank]
        · intro _; split <;> simp [hs]
      | Processing =>
        simp only [reconcile, hs]
        constructor
        · split
          · intro hne; simp at hne
          · split
            · split
              · intro _; simp [statusRank]
              · intro hne; simp at hne
            · intro _; simp [statusRank]
        · intro hterm; simp [jobTerminal] at hterm
      | Assembling =>
        simp only [reconcile, hs]
        constructor
        · split
          · intro hne; simp at hne
          · split
            · split
              · intro _; simp [statusRank]
              · intro hne; simp at hne
            · intro _; simp [statusRank]
        · intro hterm; simp [jobTerminal] at hterm
    | cancel s =>
      by_cases ht : j.status = JobStatus.Completed ∨ j.status = JobStatus.Failed
      · simp [cancelJob, ht]
      · simp only [cancelJob, if_neg ht]
        constructor
        · intro hne; simp at hne
        · intro hterm; exfalso; apply ht; simpa [jobTerminal] using hterm
  exact ⟨hmain.1, hmain.2, hcancel⟩

/-- A task that is not `Pending` is never picked up by the re-lease/process
cycle, so a run of attempts leaves it untouched. -/
lemma runAttempts_stuck (outs : List Bool) : ∀ t : PageTask,
    t.status ≠ TaskStatus.Pending → runAttempts outs t = t := by
  induction outs with
  | nil => exact fun t _ => rfl
  | cons o rest ih =>
    intro t hne
    have hstep : stepAttempt o t = t := by simp [stepAttempt, hne]
    simp [runAttempts, List.foldl_cons, hstep]
    exact ih t hne

/-- A `Pending` task reaches a terminal state within `max_attempts` further
processing attempts: each failing attempt strictly increases
`attempt_count`, and reaching the cap marks the task permanently Failed. -/
lemma terminal_after (outs : List Bool) : ∀ t : PageTask,
    t.status = TaskStatus.Pending → 1 ≤ outs.length →
    t.max_attempts ≤ outs.length + t.attempt_count →
    (runAttempts outs t).status = TaskStatus.Done
    ∨ (runAttempts outs t).status = TaskStatus.Failed := by
  induction outs with
  | nil => intro t _ hl _; simp at hl
  | cons o rest ih =>
    intro t hp hl hm
    have hrun : runAttempts (o :: rest) t = runAttempts rest (stepAttempt o t) := by
      simp [runAttempts, List.foldl_cons]
    cases o with
    | true =>
      have hstep : stepAttempt true t
          = { t with status := TaskStatus.Done, result_ref := some "fragment",
                     lease := none } := by
        simp [stepAttempt, hp, completeTask, leaseTask, leaseOwner]
      rw [hrun, hstep, runAttempts_stuck rest _ (by simp)]
      simp
    | false =>
      by_cases hlt : t.attempt_count + 1 < t.max_attempts
      · have hstep : stepAttempt false t
            = { t with status := TaskStatus.Pending,
                       attempt_count := t.attempt_count + 1, lease := none } := by
          simp [stepAttempt, hp, failTask, leaseTask, leaseOwner, hlt]
        rw [hrun, hstep]
        apply ih
        · rfl
        · simp only [List.length_cons] at hm
          omega
        · simp only [List.length_cons] at hm
          show t.max_attempts ≤ rest.length + (t.attempt_count + 1)
          omega
      · have hstep : stepAttempt false t
            = { t with status := TaskStatus.Failed,
                       attempt_count := t.attempt_count + 1,
                       error := some PipelineError.ExtractError, lease := none } := by
          simp [stepAttempt, hp, failTask, leaseTask, leaseOwner, hlt]
        rw [hrun, hstep, runAttempts_stuck rest _ (by simp)]
        simp

/-- C8: crash recovery.  A `Pending` task leased at instant `a` with TTL `L`
by a worker that never heartbeats again is reclaimed — returned to `Pending`
with its lease cleared — by the periodic reconcile sweep (ticks at
multiples of the sweep interval `Δ`) at a tick no later than
`a + L + Δ` (within TTL + sweep interval); afterwards, any fair sequence of
at least `max_attempts` processing attempts takes the task to a terminal
state (`Done` or `Failed`). -/
theorem crash_recovery (t : PageTask) (w a L Δ : Nat) (hΔ : 0 < Δ)
    (hp : t.status = TaskStatus.Pending) :
    ∃ k : Nat,
      a + L ≤ k * Δ ∧ k * Δ ≤ a + L + Δ
      ∧ (reclaimTask (k * Δ) (leaseTask w a L t)).status = TaskStatus.Pending
      ∧ (reclaimTask (k * Δ) (leaseTask w a L t)).lease = none
      ∧ (∀ outs : List Bool, 1 ≤ outs.length → t.max_attempts ≤ outs.length →
          (runAttempts outs (reclaimTask (k * Δ) (leaseTask w a L t))).status
              = TaskStatus.Done
          ∨ (runAttempts outs (reclaimTask (k * Δ) (leaseTask w a L t))).status
              = TaskStatus.Failed) := by
  have h1 : a + L ≤ ((a + L) / Δ + 1) * Δ := by
    calc a + L = Δ * ((a + L) / Δ) + (a + L) % Δ := (Nat.div_add_mod _ _).symm
      _ ≤ Δ * ((a + L) / Δ) + Δ := by
          have h2 := Nat.mod_lt (a + L) hΔ
          omega
      _ = ((a + L) / Δ + 1) * Δ := by ring
  have h2 : ((a + L) / Δ + 1) * Δ ≤ a + L + Δ := by
    calc ((a + L) / Δ + 1) * Δ = (a + L) / Δ * Δ + Δ := by ring
      _ ≤ (a + L) + Δ := Nat.add_le_add_right (Nat.div_mul_le_self _ _) Δ
  have hrec : reclaimTask (((a + L) / Δ + 1) * Δ) (leaseTask w a L t)
      = { t with status := TaskStatus.Pending, lease := none } := by
    simp [leaseTask, hp, reclaimTask, leaseExpired, h1]
  refine ⟨(a + L) / Δ + 1, h1, h2, ?_, ?_, ?_⟩
  · rw [hrec]
  · rw [hrec]
  · intro outs hl hmax
    rw [hrec]
    apply terminal_after outs _ rfl hl
    show t.max_attempts ≤ outs.length + t.attempt_count
    omega

theorem crash_recovery_witness :
    ∃ k : Nat,
      0 + 5 ≤ k * 10 ∧ k * 10 ≤ 0 + 5 + 10
      ∧ (reclaimTask (k * 10) (leaseTask 1 0 5 (mkTask 2 0 "img"))).status
          = TaskStatus.Pending
      ∧ (reclaimTask (k * 10) (leaseTask 1 0 5 (mkTask 2 0 "img"))).lease = none
      ∧ (∀ outs : List Bool, 1 ≤ outs.length →
          (mkTask 2 0 "img").max_attempts ≤ outs.length →
          (runAttempts outs (reclaimTask (k * 10) (leaseTask 1 0 5 (mkTask 2 0 "img")))).status
              = TaskStatus.Done
          ∨ (runAttempts outs (reclaimTask (k * 10) (leaseTask 1 0 5 (mkTask 2 0 "img")))).status
              = TaskStatus.Failed) :=
  crash_recovery (mkTask 2 0 "img") 1 0 5 10 (by decide) rfl

theorem status_monotonic_witness :
    ((beginSplit submitJob).status ≠ JobStatus.Failed →
       statusRank submitJob.status ≤ statusRank (beginSplit submitJob).status)
    ∧ (jobTerminal submitJob.status = true →
        (beginSplit submitJob).status = submitJob.status)
    ∧ (jobTerminal submitJob.status = false →
        JobStep submitJob (cancelJob submitJob)
        ∧ (cancelJob submitJob).status = JobStatus.Failed) :=
  status_monotonic submitJob (beginSplit submitJob) (JobStep.splitStart submitJob)

end Pdf2Md

namespace UploadScript

/-- Observable actions of `convertAndUpload` in
`jest-tests/scripts/traverse_and_upload.js`, in program order: the empty-file
and missing-mime early exits, the key-value lookup (`keyvDb.get`) with its
outcome, the key-value mark (`keyvDb.set`), the HTTP POST to `/file`, and the
logging of its OK / non-OK outcome. -/
inductive UploadEvent where
  | emptyFileError
  | mimeError
  | kvGet (key : String) (hit : Bool)
  | kvSet (key : String)
  | httpPost (key : String)
  | httpOkLogged (key : String)
  | httpErrorLogged (key : String)
  deriving DecidableEq, Repr

/-- Embedding of `convertAndUpload` (traverse_and_upload.js lines 14-91).
The file's bytes are abstracted to `fileEmpty` (the length-0 buffer check)
and `mimeKnown` (whether `fileTypeFromBuffer` yields a mime type; its
absence throws); base64-encoding a non-empty buffer is never empty, so that
guard is subsumed by `fileEmpty`.  `kv` is the set of `ocFilePath` keys
already present in the keyv store.  `resp` is the fate of the HTTP request:
`none` means the fetch promise rejected (network failure), `some ok` a
response with `response.ok = ok`.  The function returns the updated store
and the ordered trace of events: the store lookup happens first; on a miss
the key is recorded with `keyvDb.set` BEFORE the HTTP request is issued. -/
def convertAndUpload (fileEmpty mimeKnown : Bool) (resp : Option Bool)
    (ocFilePath : String) (kv : List String) : List String × List UploadEvent :=
  if fileEmpty then (kv, [UploadEvent.emptyFileError])
  else if !mimeKnown then (kv, [UploadEvent.mimeError])
  else if ocFilePath ∈ kv then (kv, [UploadEvent.kvGet ocFilePath true])
  else
    let kv1 := ocFilePath :: kv
    match resp with
    | none =>
        (kv1, [UploadEvent.kvGet ocFilePath false, UploadEvent.kvSet ocFilePath,
               UploadEvent.httpPost ocFilePath])
    | some true =>
        (kv1, [UploadEvent.kvGet ocFilePath false, UploadEvent.kvSet ocFilePath,
               UploadEvent.httpPost ocFilePath, UploadEvent.httpOkLogged ocFilePath])
    | some false =>
        (kv1, [UploadEvent.kvGet ocFilePath false, UploadEvent.kvSet ocFilePath,
               UploadEvent.httpPost ocFilePath, UploadEvent.httpErrorLogged ocFilePath])

/-- Repeated runs of the script over the same file path (the keyv store is
the only state carried across runs), accumulating the event traces. -/
def runUploads (fileEmpty mimeKnown : Bool) (ocFilePath : String) (kv : List String) :
    List (Option Bool) → List String × List UploadEvent
  | [] => (kv, [])
  | r :: rs =>
    let step := convertAndUpload fileEmpty mimeKnown r ocFilePath kv
    let rest := runUploads fileEmpty mimeKnown ocFilePath step.1 rs
    (rest.1, step.2 ++ rest.2)

end UploadScript

namespace FormatDate

/-- JavaScript `String.prototype.split` with a single-character separator,
over strings represented as lists of characters: splits at every occurrence
of the separator; always returns at least one (possibly empty) piece. -/
def splitOnChar (sep : Char) : List Char → List (List Char)
  | [] => [[]]
  | c :: rest =>
    if c = sep then [] :: splitOnChar sep rest
    else
      match splitOnChar sep rest with
      | s :: ss => (c :: s) :: ss
      | [] => [[c]]

/-- JavaScript `String.prototype.padStart(2, "0")`: prepend zeros until the
length is at least 2. -/
def padStart2 (s : List Char) : List Char :=
  if 2 ≤ s.length then s else List.replicate (2 - s.length) '0' ++ s

/-- Numeric value of a decimal digit string (most significant first). -/
def digitsToNat (s : List Char) : Nat :=
  s.foldl (fun n c => n * 10 + (c.toNat - 48)) 0

/-- The observable content of a JavaScript `Date` built from a Date Time
String Format string: calendar components, milliseconds, and whether the
string carried the UTC designator `Z` (so the components are interpreted in
UTC rather than local time). -/
structure JSDate where
  year : Nat
  month : Nat
  day : Nat
  hour : Nat
  minute : Nat
  second : Nat
  millisecond : Nat
  utc : Bool
  deriving DecidableEq, Repr

/-- Model of the ECMAScript `Date` constructor on Date Time String Format
strings of the shape `YYYY-MM-DDTHH:MM:SSZ` or `YYYY-MM-DDTHH:MM:SS.sssZ`:
fixed-width decimal fields, an optional 3-digit millisecond fraction
(absent means 0 milliseconds), and the trailing `Z` marking UTC.  Strings
outside this family are not modelled (`none`). -/
def jsDateFromISO (s : List Char) : Option JSDate :=
  match splitOnChar 'T' s with
  | [d, t] =>
    match splitOnChar '-' d with
    | [y, mo, da] =>
      if y.length = 4 ∧ y.all Char.isDigit ∧ mo.length = 2 ∧ mo.all Char.isDigit
          ∧ da.length = 2 ∧ da.all Char.isDigit then
        match t.reverse with
        | 'Z' :: timeRev =>
          match splitOnChar ':' timeRev.reverse with
          | [h, mi, se] =>
            match splitOnChar '.' se with
            | [ss] =>
              if h.length = 2 ∧ h.all Char.isDigit ∧ mi.length = 2 ∧ mi.all Char.isDigit
                  ∧ ss.length = 2 ∧ ss.all Char.isDigit then
                some ⟨digitsToNat y, digitsToNat mo, digitsToNat da, digitsToNat h,
                      digitsToNat mi, digitsToNat ss, 0, true⟩
              else none
            | [ss, frac] =>
              if h.length = 2 ∧ h.all Char.isDigit ∧ mi.length = 2 ∧ mi.all Char.isDigit
                  ∧ ss.length = 2 ∧ ss.all Char.isDigit
                  ∧ frac.length = 3 ∧ frac.all Char.isDigit then
                some ⟨digitsToNat y, digitsToNat mo, digitsToNat da, digitsToNat h,
                      digitsToNat mi, digitsToNat ss, digitsToNat frac, true⟩
              else none
            | _ => none
          | _ => none
        | _ => none
      else none
    | _ => none
  | _ => none

/-- The `isoString` built by `parseCustomDateString`
(formatDate.ts lines 19-35): split at the space into date and time, the date
at dashes into year/month/day, the time at colons into hour/minute/second,
drop everything after the first dot of the seconds field, zero-pad month,
day, hour, minute and the whole seconds to width 2 (the year is not
padded), and join as `year-month-dayThour:minute:secZ`.  Destructuring a
missing piece in JavaScript makes the later property access throw, which is
modelled as `none`; splitting never yields an empty list, so the seconds
field always has a first piece. -/
def parseCustomDateStringISO (dateString : List Char) : Option (List Char) :=
  match splitOnChar ' ' dateString with
  | datePart :: timePart :: _ =>
    match splitOnChar '-' datePart with
    | year :: month :: day :: _ =>
      match splitOnChar ':' timePart with
      | hour :: minute :: second :: _ =>
        match splitOnChar '.' second with
        | wholeSec :: _ =>
          some (year ++ '-' :: padStart2 month ++ '-' :: padStart2 day
                ++ 'T' :: padStart2 hour ++ ':' :: padStart2 minute
                ++ ':' :: padStart2 wholeSec ++ ['Z'])
        | [] => none
      | _ => none
    | _ => none
  | _ => none

/-- Embedding of `parseCustomDateString` (formatDate.ts lines 19-36): build
the ISO string and hand it to the JavaScript `Date` constructor. -/
def parseCustomDateString (dateString : List Char) : Option JSDate :=
  (parseCustomDateStringISO dateString).bind jsDateFromISO

end FormatDate

namespace Pdf2Md

/-- C5: a Job whose split step fails — corrupt/unparseable PDF (`none`) or
zero rendered pages (`some []`) — transitions directly to `Failed` with a
`SplitError`, and zero PageTasks are ever created for it. -/
theorem split_failure_terminal (maxAtt : Nat) (j : Job) (pages : Option (List String))
    (hs : j.status = JobStatus.Splitting) (ht : j.tasks = [])
    (hfail : pages = none ∨ pages = some []) :
    (finishSplit maxAtt pages j).status = JobStatus.Failed
    ∧ (finishSplit maxAtt pages j).error = some PipelineError.SplitError
    ∧ (finishSplit maxAtt pages j).tasks = [] := by
  rcases hfail with h | h <;> subst h <;> simp [finishSplit, hs, ht]

theorem split_failure_terminal_witness :
    (finishSplit 3 none (beginSplit submitJob)).status = JobStatus.Failed
    ∧ (finishSplit 3 none (beginSplit submitJob)).error = some PipelineError.SplitError
    ∧ (finishSplit 3 none (beginSplit submitJob)).tasks = [] :=
  split_failure_terminal 3 (beginSplit submitJob) none rfl rfl (Or.inl rfl)

/-- C6: with `max_attempts = 3` and a 50% partial-failure threshold, the
5-page Job of Scenario B (exactly one page permanently failed after 3
extraction failures) reconciles to `Completed` with the 4 remaining
fragments in page order and exactly one recorded per-page `ExtractError`,
while the Scenario C Job (4 of 5 pages permanently failed, above the
threshold) reconciles to `Failed` with `PartialFailure`. -/
theorem partial_failure_scenarios :
    ((reconcile 1000 50 scenarioB).1.status = JobStatus.Completed
     ∧ (reconcile 1000 50 scenarioB).1.result
         = some [⟨0, "m0"⟩, ⟨1, "m1"⟩, ⟨2, "m2"⟩, ⟨4, "m4"⟩]
     ∧ ((reconcile 1000 50 scenarioB).1.tasks.filter
          (fun t => t.error = some PipelineError.ExtractError)).length = 1
     ∧ ((reconcile 1000 50 scenarioB).1.tasks.filter
          (fun t => t.error.isSome)).length = 1)
    ∧ ((reconcile 1000 50 scenarioC).1.status = JobStatus.Failed
       ∧ (reconcile 1000 50 scenarioC).1.error = some PipelineError.PartialFailure) := by
  decide

/-- C1, counterexample: the Scenario B Job reaches `Completed` (its one
permanently failed page is below the 50% threshold), yet its assembled
fragment sequence has no fragment for page 3, so a Completed Job's result
does not always contain one fragment per page number `0 .. page_count-1`. -/
theorem completed_result_gap_counterexample :
    (reconcile 1000 50 scenarioB).1.status = JobStatus.Completed
    ∧ (reconcile 1000 50 scenarioB).1.page_count = 5
    ∧ (((reconcile 1000 50 scenarioB).1.result.getD []).map Fragment.page_number)
        = [0, 1, 2, 4]
    ∧ ¬ 3 ∈ (((reconcile 1000 50 scenarioB).1.result.getD []).map Fragment.page_number) := by
  decide

/-- Once the persisted callback flag is set, a reconcile never invokes the
callback again and never clears the flag. -/
lemma reconcile_fired (now thr : Nat) (j : Job) (h : j.callback_fired = true) :
    (reconcile now thr j).1.callback_fired = true ∧ (reconcile now thr j).2 = false := by
  cases hs : j.status with
  | Queued => simp [reconcile, hs, h]
  | Splitting => simp [reconcile, hs, h]
  | Failed => simp [reconcile, hs, h]
  | Completed => simp [reconcile, hs, h]
  | Processing =>
    simp only [reconcile, hs]
    split
    · simp [h]
    · split
      · split
        · simp [h]
        · simp [h]
      · simp [h]
  | Assembling =>
    simp only [reconcile, hs]
    split
    · simp [h]
    · split
      · split
        · simp [h]
        · simp [h]
      · simp [h]

/-- A reconcile of a Job whose callback flag is unset either invokes the
callback (setting the flag), or leaves the flag unset, invokes nothing, and
does not land on `Completed`. -/
lemma reconcile_not_fired (now thr : Nat) (j : Job) (h : j.callback_fired = false) :
    ((reconcile now thr j).2 = true ∧ (reconcile now thr j).1.callback_fired = true)
    ∨ ((reconcile now thr j).2 = false ∧ (reconcile now thr j).1.callback_fired = false
        ∧ (reconcile now thr j).1.status ≠ JobStatus.Completed) := by
  cases hs : j.status with
  | Queued => exact Or.inr (by simp [reconcile, hs, h])
  | Splitting => exact Or.inr (by simp [reconcile, hs, h])
  | Failed => exact Or.inr (by simp [reconcile, hs, h])
  | Completed => exact Or.inl (by simp [reconcile, hs, h])
  | Processing =>
    simp only [reconcile, hs]
    split
    · exact Or.inr (by simp [h])
    · split
      · split
        · exact Or.inl (by simp [h])
        · exact Or.inr (by simp [h])
      · exact Or.inr (by simp [h, hs])
  | Assembling =>
    simp only [reconcile, hs]
    split
    · exact Or.inr (by simp [h])
    · split
      · split
        · exact Or.inl (by simp [h])
        · exact Or.inr (by simp [h])
      · exact Or.inr (by simp [h, hs])

/-- Across any sequence of reconciles of a Job whose flag is already set,
the callback is never invoked and the flag stays set. -/
lemma reconcileRun_fired (ps : List (Nat × Nat)) : ∀ j : Job, j.callback_fired = true →
    (reconcileRun j ps).2 = 0 ∧ (reconcileRun j ps).1.callback_fired = true := by
  induction ps with
  | nil => exact fun j h => ⟨rfl, h⟩
  | cons p ps ih =>
    intro j h
    have hf := reconcile_fired p.1 p.2 j h
    have hrest := ih (reconcile p.1 p.2 j).1 hf.1
    simp [reconcileRun, hf.2, hrest.1, hrest.2]

/-- Across any sequence of reconciles from an unfired, not-yet-Completed
Job, the callback fires exactly once if the Job ends `Completed`, and at
most once in any case. -/
lemma reconcileRun_count (ps : List (Nat × Nat)) : ∀ j : Job,
    j.callback_fired = false → j.status ≠ JobStatus.Completed →
    ((reconcileRun j ps).2 = 1 ∧ (reconcileRun j ps).1.callback_fired = true)
    ∨ ((reconcileRun j ps).2 = 0 ∧ (reconcileRun j ps).1.callback_fired = false
        ∧ (reconcileRun j ps).1.status ≠ JobStatus.Completed) := by
  induction ps with
  | nil => exact fun j h hs => Or.inr ⟨rfl, h, hs⟩
  | cons p ps ih =>
    intro j h hs
    rcases reconcile_not_fired p.1 p.2 j h with ⟨h2, hflag⟩ | ⟨h2, hflag, hstat⟩
    · have hrest := reconcileRun_fired ps (reconcile p.1 p.2 j).1 hflag
      exact Or.inl (by simp [reconcileRun, h2, hrest.1, hrest.2])
    · rcases ih (reconcile p.1 p.2 j).1 hflag hstat with ⟨hc, hf⟩ | ⟨hc, hf, hst⟩
      · exact Or.inl (by simp [reconcileRun, h2, hc, hf])
      · exact Or.inr (by simp [reconcileRun, h2, hc, hf, hst])

/-- C2: reconcile is idempotent with respect to completion notification.
Starting from any Job whose persisted callback flag is unset and that is not
yet `Completed`, any sequence of reconcile invocations invokes the callback
at most once, and exactly once whenever the sequence ends with the Job
`Completed`; moreover on any Job whose flag is already set — in particular a
Job already `Completed`, whose completing reconcile set the flag — two
reconciles in immediate succession both invoke nothing. -/
theorem reconcile_callback_exactly_once (j : Job) (ps : List (Nat × Nat))
    (hf : j.callback_fired = false) (hs : j.status ≠ JobStatus.Completed) :
    (reconcileRun j ps).2 ≤ 1
    ∧ ((reconcileRun j ps).1.status = JobStatus.Completed → (reconcileRun j ps).2 = 1)
    ∧ (∀ (j' : Job) (n₁ t₁ n₂ t₂ : Nat), j'.callback_fired = true →
        (reconcile n₁ t₁ j').2 = false
        ∧ (reconcile n₂ t₂ (reconcile n₁ t₁ j').1).2 = false) := by
  refine ⟨?_, ?_, ?_⟩
  · rcases reconcileRun_count ps j hf hs with ⟨hc, _⟩ | ⟨hc, _, _⟩ <;> omega
  · intro hcmp
    rcases reconcileRun_count ps j hf hs with ⟨hc, _⟩ | ⟨_, _, hst⟩
    · exact hc
    · exact absurd hcmp hst
  · intro j' n₁ t₁ n₂ t₂ hj
    have h1 := reconcile_fired n₁ t₁ j' hj
    have h2 := reconcile_fired n₂ t₂ (reconcile n₁ t₁ j').1 h1.1
    exact ⟨h1.2, h2.2⟩

theorem reconcile_callback_exactly_once_witness :
    (reconcileRun scenarioB [(1000, 50), (1001, 50)]).2 ≤ 1
    ∧ ((reconcileRun scenarioB [(1000, 50), (1001, 50)]).1.status = JobStatus.Completed →
        (reconcileRun scenarioB [(1000, 50), (1001, 50)]).2 = 1)
    ∧ (∀ (j' : Job) (n₁ t₁ n₂ t₂ : Nat), j'.callback_fired = true →
        (reconcile n₁ t₁ j').2 = false
        ∧ (reconcile n₂ t₂ (reconcile n₁ t₁ j').1).2 = false) :=
  reconcile_callback_exactly_once scenarioB [(1000, 50), (1001, 50)] (by decide) (by decide)

/-- The page numbers of an assembled fragment list are exactly the pages of
the requested list whose task completed `Done`, in the same order. -/
lemma assemblePages_pages (ts : List PageTask) : ∀ (l : List Nat) (fr : List Fragment),
    assemblePages ts l = some fr →
    fr.map Fragment.page_number = l.filter (fun i => isDonePage ts i) := by
  intro l
  induction l with
  | nil =>
    intro fr h
    simp [assemblePages] at h
    subst h
    simp
  | cons i rest ih =>
    intro fr h
    cases hf : ts.find? (fun t => t.page_number = i) with
    | none => simp [assemblePages, hf] at h
    | some t =>
      cases hst : t.status with
      | Done =>
        cases hres : t.result_ref with
        | none => simp [assemblePages, hf, hst, hres] at h
        | some frag =>
          simp only [assemblePages, hf, hst, hres] at h
          rcases Option.map_eq_some'.mp h with ⟨fr', hfr', hcons⟩
          subst hcons
          simp only [List.map_cons]
          rw [ih fr' hfr']
          simp [isDonePage, hf, hst]
      | Failed =>
        simp only [assemblePages, hf, hst] at h
        rw [ih fr h]
        simp [isDonePage, hf, hst]
      | Pending => simp [assemblePages, hf, hst] at h
      | Leased => simp [assemblePages, hf, hst] at h

/-- Successful assembly finds a task row for every requested page. -/
lemma assemblePages_found (ts : List PageTask) : ∀ (l : List Nat) (fr : List Fragment),
    assemblePages ts l = some fr → ∀ i ∈ l,
    ∃ t, ts.find? (fun t => t.page_number = i) = some t := by
  intro l
  induction l with
  | nil => intro fr _ i hi; simp at hi
  | cons p rest ih =>
    intro fr h i hi
    cases hf : ts.find? (fun t => t.page_number = p) with
    | none => simp [assemblePages, hf] at h
    | some t =>
      rcases List.mem_cons.mp hi with hip | hir
      · exact ⟨t, hip ▸ hf⟩
      · cases hst : t.status with
        | Done =>
          cases hres : t.result_ref with
          | none => simp [assemblePages, hf, hst, hres] at h
          | some frag =>
            simp only [assemblePages, hf, hst, hres] at h
            rcases Option.map_eq_some'.mp h with ⟨fr', hfr', _⟩
            exact ih fr' hfr' i hir
        | Failed =>
          simp only [assemblePages, hf, hst] at h
          exact ih fr h i hir
        | Pending => simp [assemblePages, hf, hst] at h
        | Leased => simp [assemblePages, hf, hst] at h

/-- A reconcile that takes a not-yet-`Completed` Job to `Completed` produced
its result by assembling the Job's (reclaimed) tasks. -/
lemma reconcile_completed_result (now thr : Nat) (j : Job) (frags : List Fragment)
    (hnc : j.status ≠ JobStatus.Completed)
    (hc : (reconcile now thr j).1.status = JobStatus.Completed)
    (hr : (reconcile now thr j).1.result = some frags) :
    assemble (reconcile now thr j).1.page_count (reconcile now thr j).1.tasks
      = some frags := by
  cases hs : j.status with
  | Queued => simp [reconcile, hs] at hc
  | Splitting => simp [reconcile, hs] at hc
  | Failed => simp [reconcile, hs] at hc
  | Completed => exact absurd hs hnc
  | Processing =>
    by_cases hex : exceedsThreshold thr (j.tasks.map (reclaimTask now)) = true
    · simp [reconcile, hs, hex] at hc
    · by_cases hterm : (j.tasks.map (reclaimTask now)).all taskTerminal = true
      · cases hasm : assemble j.page_count (j.tasks.map (reclaimTask now)) with
        | none => simp [reconcile, hs, hex, hterm, hasm] at hc
        | some fr0 =>
          have hr' : (reconcile now thr j).1.result = some fr0 := by
            simp [reconcile, hs, hex, hterm, hasm]
          rw [hr'] at hr
          simp only [Option.some.injEq] at hr
          subst hr
          simp [reconcile, hs, hex, hterm, hasm]
      · simp [reconcile, hs, hex, hterm] at hc
  | Assembling =>
    by_cases hex : exceedsThreshold thr (j.tasks.map (reclaimTask now)) = true
    · simp [reconcile, hs, hex] at hc
    · by_cases hterm : (j.tasks.map (reclaimTask now)).all taskTerminal = true
      · cases hasm : assemble j.page_count (j.tasks.map (reclaimTask now)) with
        | none => simp [reconcile, hs, hex, hterm, hasm] at hc
        | some fr0 =>
          have hr' : (reconcile now thr j).1.result = some fr0 := by
            simp [reconcile, hs, hex, hterm, hasm]
          rw [hr'] at hr
          simp only [Option.some.injEq] at hr
          subst hr
          simp [reconcile, hs, hex, hterm, hasm]
      · simp [reconcile, hs, hex, hterm] at hc

/-- C1, amended: for every Job that reconcile takes to `Completed`, the
assembled fragment sequence is strictly increasing in `page_number` (hence
duplicate-free) regardless of the order in which page tasks completed, and
contains exactly one fragment for each page in `0 .. page_count-1` whose
task is `Done`; it is the full range `0 .. page_count-1` whenever every task
of the Job is `Done`. -/
theorem completed_result_ordered (now thr : Nat) (j : Job) (frags : List Fragment)
    (hnc : j.status ≠ JobStatus.Completed)
    (hc : (reconcile now thr j).1.status = JobStatus.Completed)
    (hr : (reconcile now thr j).1.result = some frags) :
    List.Pairwise (fun a b => a < b) (frags.map Fragment.page_number)
    ∧ (frags.map Fragment.page_number).Nodup
    ∧ frags.map Fragment.page_number
        = (List.range (reconcile now thr j).1.page_count).filter
            (fun i => isDonePage (reconcile now thr j).1.tasks i)
    ∧ ((∀ t ∈ (reconcile now thr j).1.tasks, t.status = TaskStatus.Done) →
        frags.map Fragment.page_number
          = List.range (reconcile now thr j).1.page_count) := by
  have hasm := reconcile_completed_result now thr j frags hnc hc hr
  have hmap := assemblePages_pages (reconcile now thr j).1.tasks
    (List.range (reconcile now thr j).1.page_count) frags hasm
  have hpair : List.Pairwise (fun a b => a < b) (frags.map Fragment.page_number) := by
    rw [hmap]
    exact List.Pairwise.sublist (List.filter_sublist _) (List.pairwise_lt_range _)
  refine ⟨hpair, ?_, hmap, ?_⟩
  · exact hpair.imp Nat.ne_of_lt
  · intro hall
    rw [hmap]
    apply List.filter_eq_self.mpr
    intro i hi
    obtain ⟨t, hf⟩ := assemblePages_found (reconcile now thr j).1.tasks
      (List.range (reconcile now thr j).1.page_count) frags hasm i hi
    have hmem : t ∈ (reconcile now thr j).1.tasks := List.mem_of_find?_eq_some hf
    have hd := hall t hmem
    simp [isDonePage, hf, hd]

theorem completed_result_ordered_witness :
    List.Pairwise (fun a b => a < b)
      (([⟨0, "a0"⟩, ⟨1, "a1"⟩, ⟨2, "a2"⟩] : List Fragment).map Fragment.page_number)
    ∧ (([⟨0, "a0"⟩, ⟨1, "a1"⟩, ⟨2, "a2"⟩] : List Fragment).map Fragment.page_number).Nodup
    ∧ ([⟨0, "a0"⟩, ⟨1, "a1"⟩, ⟨2, "a2"⟩] : List Fragment).map Fragment.page_number
        = (List.range (reconcile 100 50 scenarioA).1.page_count).filter
            (fun i => isDonePage (reconcile 100 50 scenarioA).1.tasks i)
    ∧ ((∀ t ∈ (reconcile 100 50 scenarioA).1.tasks, t.status = TaskStatus.Done) →
        ([⟨0, "a0"⟩, ⟨1, "a1"⟩, ⟨2, "a2"⟩] : List Fragment).map Fragment.page_number
          = List.range (reconcile 100 50 scenarioA).1.page_count) :=
  completed_result_ordered 100 50 scenarioA [⟨0, "a0"⟩, ⟨1, "a1"⟩, ⟨2, "a2"⟩]
    (by decide) (by decide) (by decide)

/-- C3: lease safety across a reclaimed lease.  A task leased by worker `w₁`
whose lease expired is reclaimed by reconcile and re-leased to a second
worker `w₂`; because every state-mutating write re-verifies lease ownership,
`w₁`'s late write is rejected both before and after `w₂` completes the task,
and the task's `result_ref` reflects only `w₂`'s output. -/
theorem lease_safety (t : PageTask) (w₁ w₂ a L now a₂ L₂ : Nat) (frag₁ frag₂ : String)
    (hp : t.status = TaskStatus.Pending) (hw : w₁ ≠ w₂) (hexp : a + L ≤ now) :
    completeTask w₁ frag₁ (leaseTask w₂ a₂ L₂ (reclaimTask now (leaseTask w₁ a L t)))
        = leaseTask w₂ a₂ L₂ (reclaimTask now (leaseTask w₁ a L t))
    ∧ completeTask w₁ frag₁
          (completeTask w₂ frag₂ (leaseTask w₂ a₂ L₂ (reclaimTask now (leaseTask w₁ a L t))))
        = completeTask w₂ frag₂ (leaseTask w₂ a₂ L₂ (reclaimTask now (leaseTask w₁ a L t)))
    ∧ (completeTask w₂ frag₂
          (leaseTask w₂ a₂ L₂ (reclaimTask now (leaseTask w₁ a L t)))).result_ref
        = some frag₂ := by
  have h3 : leaseTask w₂ a₂ L₂ (reclaimTask now (leaseTask w₁ a L t))
      = { t with status := TaskStatus.Leased, lease := some ⟨w₂, a₂, L₂⟩ } := by
    simp [leaseTask, reclaimTask, leaseExpired, hp, hexp]
  have h4 : completeTask w₂ frag₂ (leaseTask w₂ a₂ L₂ (reclaimTask now (leaseTask w₁ a L t)))
      = { t with status := TaskStatus.Done, result_ref := some frag₂, lease := none } := by
    rw [h3]; simp [completeTask, leaseOwner]
  refine ⟨?_, ?_, ?_⟩
  · rw [h3]; simp [completeTask, leaseOwner, Ne.symm hw]
  · rw [h4]; simp [completeTask]
  · rw [h4]

/-- A Queue/Lease Store step never touches a permanently `Failed` task:
every operation's guard requires `Pending` or `Leased` status. -/
lemma taskStep_frozen {t t' : PageTask} (h : TaskStep t t')
    (hf : t.status = TaskStatus.Failed) : t' = t := by
  cases h with
  | lease w now ttl s => simp [leaseTask, hf]
  | heartbeat w now ttl s => simp [heartbeatTask, hf]
  | reclaim now s => simp [reclaimTask, hf]
  | complete w frag s => simp [completeTask, hf]
  | fail w e s => simp [failTask, hf]

/-- A Queue/Lease Store step preserves the attempt-count bound: a task that
is not permanently `Failed` has `attempt_count ≤ max_attempts`. -/
lemma taskStep_preserves_bound {t t' : PageTask} (h : TaskStep t t')
    (hi : t.status ≠ TaskStatus.Failed → t.attempt_count ≤ t.max_attempts) :
    t'.status ≠ TaskStatus.Failed → t'.attempt_count ≤ t'.max_attempts := by
  cases h with
  | lease w now ttl s =>
    by_cases hc : t.status = TaskStatus.Pending
    · simp only [leaseTask, hc, if_pos rfl]
      exact fun _ => hi (by simp [hc])
    · simp only [leaseTask, if_neg hc]
      exact hi
  | heartbeat w now ttl s =>
    unfold heartbeatTask
    split
    · next hc => exact fun _ => hi (by simp [hc.1])
    · exact hi
  | reclaim now s =>
    unfold reclaimTask
    split
    · next hc => exact fun _ => hi (by simp [hc.1])
    · exact hi
  | complete w frag s =>
    unfold completeTask
    split
    · next hc => exact fun _ => hi (by simp [hc.1])
    · exact hi
  | fail w e s =>
    unfold failTask
    split
    · next hc =>
      by_cases hlt : t.attempt_count + 1 < t.max_attempts
      · simp [hlt]; omega
      · simp [hlt]
    · exact hi

/-- C4: along any sequence of Queue/Lease Store steps from a task whose
attempt count is within its cap, `attempt_count` never exceeds
`max_attempts` while the task is not permanently `Failed`; a `Failed` task
is frozen (in particular never re-leased); and an extractor-failure write
whose incremented count is no longer strictly below `max_attempts` marks
the task permanently `Failed` with its typed error. -/
theorem attempts_bounded (t₀ t : PageTask) (hr : ReachableTask t₀ t)
    (h1 : t₀.attempt_count ≤ t₀.max_attempts) :
    (t.status ≠ TaskStatus.Failed → t.attempt_count ≤ t.max_attempts)
    ∧ (∀ t', TaskStep t t' → t.status = TaskStatus.Failed → t' = t)
    ∧ (∀ w e, t.status = TaskStatus.Leased → leaseOwner t = some w →
        t.max_attempts ≤ t.attempt_count + 1 →
        (failTask w e t).status = TaskStatus.Failed
        ∧ (failTask w e t).error = some e
        ∧ (failTask w e t).attempt_count = t.attempt_count + 1) := by
  refine ⟨?_, fun t' hs hf => taskStep_frozen hs hf, ?_⟩
  · have hr' : Relation.ReflTransGen TaskStep t₀ t := hr
    clear hr
    induction hr' with
    | refl => exact fun _ => h1
    | tail hab hbc ih => exact taskStep_preserves_bound hbc ih
  · intro w e hl ho hge
    have hnl : ¬ (t.attempt_count + 1 < t.max_attempts) := by omega
    simp [failTask, hl, ho, hnl]

theorem attempts_bounded_witness :
    ((koPass 1 25 (mkTask 3 2 "img")).status ≠ TaskStatus.Failed →
       (koPass 1 25 (mkTask 3 2 "img")).attempt_count
         ≤ (koPass 1 25 (mkTask 3 2 "img")).max_attempts)
    ∧ (∀ t', TaskStep (koPass 1 25 (mkTask 3 2 "img")) t' →
        (koPass 1 25 (mkTask 3 2 "img")).status = TaskStatus.Failed →
        t' = koPass 1 25 (mkTask 3 2 "img"))
    ∧ (∀ w e, (koPass 1 25 (mkTask 3 2 "img")).status = TaskStatus.Leased →
        leaseOwner (koPass 1 25 (mkTask 3 2 "img")) = some w →
        (koPass 1 25 (mkTask 3 2 "img")).max_attempts
          ≤ (koPass 1 25 (mkTask 3 2 "img")).attempt_count + 1 →
        (failTask w e (koPass 1 25 (mkTask 3 2 "img"))).status = TaskStatus.Failed
        ∧ (failTask w e (koPass 1 25 (mkTask 3 2 "img"))).error = some e
        ∧ (failTask w e (koPass 1 25 (mkTask 3 2 "img"))).attempt_count
            = (koPass 1 25 (mkTask 3 2 "img")).attempt_count + 1) :=
  attempts_bounded (mkTask 3 2 "img") (koPass 1 25 (mkTask 3 2 "img"))
    (Relation.ReflTransGen.tail
      (Relation.ReflTransGen.single (TaskStep.lease 1 25 60 (mkTask 3 2 "img")))
      (TaskStep.fail 1 PipelineError.ExtractError (leaseTask 1 25 60 (mkTask 3 2 "img"))))
    (by decide)

theorem lease_safety_witness :
    completeTask 1 "f1" (leaseTask 2 6 5 (reclaimTask 5 (leaseTask 1 0 5 (mkTask 3 0 "img"))))
        = leaseTask 2 6 5 (reclaimTask 5 (leaseTask 1 0 5 (mkTask 3 0 "img")))
    ∧ completeTask 1 "f1"
          (completeTask 2 "f2" (leaseTask 2 6 5 (reclaimTask 5 (leaseTask 1 0 5 (mkTask 3 0 "img")))))
        = completeTask 2 "f2" (leaseTask 2 6 5 (reclaimTask 5 (leaseTask 1 0 5 (mkTask 3 0 "img"))))
    ∧ (completeTask 2 "f2"
          (leaseTask 2 6 5 (reclaimTask 5 (leaseTask 1 0 5 (mkTask 3 0 "img"))))).result_ref
        = some "f2" :=
  lease_safety (mkTask 3 0 "img") 1 2 0 5 5 6 5 "f1" "f2" rfl (by decide) (by decide)

end Pdf2Md

namespace UploadScript

/-- Once a path is present in the keyv store, every later run of the script
over that path skips it: the store is unchanged and no HTTP request is ever
issued again. -/
lemma runUploads_skips (ocFilePath : String) : ∀ (resps : List (Option Bool)) (kv : List String),
    ocFilePath ∈ kv →
    (runUploads false true ocFilePath kv resps).1 = kv
    ∧ UploadEvent.httpPost ocFilePath ∉ (runUploads false true ocFilePath kv resps).2 := by
  intro resps
  induction resps with
  | nil => intro kv h; exact ⟨rfl, by simp [runUploads]⟩
  | cons r rs ih =>
    intro kv h
    have hstep : convertAndUpload false true r ocFilePath kv
        = (kv, [UploadEvent.kvGet ocFilePath true]) := by
      simp [convertAndUpload, h]
    have hrest := ih kv h
    refine ⟨?_, ?_⟩ <;> simp [runUploads, hstep, hrest.1, hrest.2]

/-- C9: `convertAndUpload` records the path in the keyv store before issuing
the HTTP upload request (the `kvSet` event strictly precedes the `httpPost`
event in its trace), so after a run whose request rejects (`none`) or
returns a non-OK response (`some false`) the path stays marked as uploaded,
and every later run skips it without retrying — at-most-once upload
delivery. -/
theorem upload_at_most_once (kv : List String) (ocFilePath : String) (resp : Option Bool)
    (h : ocFilePath ∉ kv) :
    (∃ l₁ l₂ l₃ : List UploadEvent,
        (convertAndUpload false true resp ocFilePath kv).2
          = l₁ ++ UploadEvent.kvSet ocFilePath
                :: (l₂ ++ UploadEvent.httpPost ocFilePath :: l₃))
    ∧ ocFilePath ∈ (convertAndUpload false true resp ocFilePath kv).1
    ∧ ((resp = none ∨ resp = some false) →
        ∀ resps : List (Option Bool),
          (runUploads false true ocFilePath
              (convertAndUpload false true resp ocFilePath kv).1 resps).1
            = (convertAndUpload false true resp ocFilePath kv).1
          ∧ UploadEvent.httpPost ocFilePath ∉
              (runUploads false true ocFilePath
                (convertAndUpload false true resp ocFilePath kv).1 resps).2) := by
  have hmem : ocFilePath ∈ (convertAndUpload false true resp ocFilePath kv).1 := by
    cases resp with
    | none => simp [convertAndUpload, h]
    | some b => cases b <;> simp [convertAndUpload, h]
  refine ⟨?_, hmem, ?_⟩
  · cases resp with
    | none =>
      refine ⟨[UploadEvent.kvGet ocFilePath false], [], [], ?_⟩
      simp [convertAndUpload, h]
    | some b =>
      cases b with
      | true =>
        refine ⟨[UploadEvent.kvGet ocFilePath false], [],
                [UploadEvent.httpOkLogged ocFilePath], ?_⟩
        simp [convertAndUpload, h]
      | false =>
        refine ⟨[UploadEvent.kvGet ocFilePath false], [],
                [UploadEvent.httpErrorLogged ocFilePath], ?_⟩
        simp [convertAndUpload, h]
  · intro _ resps
    exact runUploads_skips ocFilePath resps _ hmem

theorem upload_at_most_once_witness :
    (∃ l₁ l₂ l₃ : List UploadEvent,
        (convertAndUpload false true (some false) "doc" []).2
          = l₁ ++ UploadEvent.kvSet "doc" :: (l₂ ++ UploadEvent.httpPost "doc" :: l₃))
    ∧ "doc" ∈ (convertAndUpload false true (some false) "doc" []).1
    ∧ ((some false = none ∨ (some false : Option Bool) = some false) →
        ∀ resps : List (Option Bool),
          (runUploads false true "doc"
              (convertAndUpload false true (some false) "doc" []).1 resps).1
            = (convertAndUpload false true (some false) "doc" []).1
          ∧ UploadEvent.httpPost "doc" ∉
              (runUploads false true "doc"
                (convertAndUpload false true (some false) "doc" []).1 resps).2) :=
  upload_at_most_once [] "doc" (some false) (by simp)

end UploadScript

namespace FormatDate

/-- Splitting a string that does not contain the separator yields the string
itself as the single piece. -/
lemma splitOnChar_no_sep (sep : Char) : ∀ s : List Char, sep ∉ s →
    splitOnChar sep s = [s] := by
  intro s
  induction s with
  | nil => intro _; rfl
  | cons c rest ih =>
    intro h
    have hc : ¬ c = sep := fun he => h (he ▸ List.mem_cons_self c rest)
    have hrest : sep ∉ rest := fun hm => h (List.mem_cons_of_mem c hm)
    simp [splitOnChar, hc, ih hrest]

/-- Splitting at the first separator occurrence peels off the prefix that
does not contain it. -/
lemma splitOnChar_append (sep : Char) : ∀ (s₁ s₂ : List Char), sep ∉ s₁ →
    splitOnChar sep (s₁ ++ sep :: s₂) = s₁ :: splitOnChar sep s₂ := by
  intro s₁
  induction s₁ with
  | nil => intro s₂ _; simp [splitOnChar]
  | cons c rest ih =>
    intro s₂ h
    have hc : ¬ c = sep := fun he => h (he ▸ List.mem_cons_self c rest)
    have hrest : sep ∉ rest := fun hm => h (List.mem_cons_of_mem c hm)
    simp [splitOnChar, hc, ih s₂ hrest]

/-- A non-digit character does not occur in an all-digit string. -/
lemma digit_not_mem (d : Char) (hd : d.isDigit = false) (s : List Char)
    (hs : s.all Char.isDigit = true) : d ∉ s := by
  intro hmem
  have hdig := List.all_eq_true.mp hs d hmem
  rw [hdig] at hd
  simp at hd

/-- A non-digit character is not in the concatenation of two strings it is
not in. -/
lemma not_mem_append (d : Char) (s₁ s₂ : List Char) (h1 : d ∉ s₁) (h2 : d ∉ s₂) :
    d ∉ s₁ ++ s₂ :=
  fun hm => (List.mem_append.mp hm).elim h1 h2

/-- A character different from the head and not in the tail is not in the
cons. -/
lemma not_mem_cons (d c : Char) (s : List Char) (h1 : d ≠ c) (h2 : d ∉ s) :
    d ∉ c :: s := by
  intro hm
  rcases List.mem_cons.mp hm with h | h
  · exact h1 h
  · exact h2 h

/-- Zero-padding keeps every character a digit. -/
lemma padStart2_digits (s : List Char) (hs : s.all Char.isDigit = true) :
    (padStart2 s).all Char.isDigit = true := by
  unfold padStart2
  split
  · exact hs
  · rw [List.all_append]
    simp only [Bool.and_eq_true]
    refine ⟨?_, hs⟩
    apply List.all_eq_true.mpr
    intro x hx
    rw [List.eq_of_mem_replicate hx]
    decide

/-- Zero-padding a string of length at most 2 yields length exactly 2. -/
lemma padStart2_length (s : List Char) (h : s.length ≤ 2) :
    (padStart2 s).length = 2 := by
  unfold padStart2
  split
  · next h2 => omega
  · next h2 =>
    rw [List.length_append, List.length_replicate]
    omega

/-- Leading zeros do not change the numeric value of a digit string. -/
lemma foldl_digit_zeros (k : Nat) :
    List.foldl (fun n c => n * 10 + (c.toNat - 48)) 0 (List.replicate k '0') = 0 := by
  induction k with
  | zero => rfl
  | succ k ih =>
    simp only [List.replicate_succ, List.foldl_cons]
    have h0 : 0 * 10 + ('0'.toNat - 48) = 0 := by decide
    rw [h0]
    exact ih

/-- The numeric value of a zero-padded digit string equals that of the
original. -/
lemma digitsToNat_pad (s : List Char) : digitsToNat (padStart2 s) = digitsToNat s := by
  unfold padStart2
  split
  · rfl
  · show digitsToNat (List.replicate (2 - s.length) '0' ++ s) = digitsToNat s
    unfold digitsToNat
    rw [List.foldl_append, foldl_digit_zeros]

end FormatDate

namespace FormatDate

/-- C10: on every well-formed timestamp `"Y-M-D H:M:S.f"` (digit components;
4-digit year; month, day, hour, minute, second of at most two digits),
`parseCustomDateString` builds the ISO string with month, day, hour, minute
and whole-second zero-padded to two digits and the fractional second
dropped entirely, terminated by the UTC designator `Z`; the resulting Date
carries the components' numeric values interpreted in UTC, with the seconds
truncated (not rounded) and the milliseconds always zero. -/
theorem parse_custom_date_utc_truncation
    (Y Mo Da H Mi S F : List Char)
    (hY1 : Y.length = 4) (hY2 : Y.all Char.isDigit = true)
    (hMo1 : 1 ≤ Mo.length) (hMo2 : Mo.length ≤ 2) (hMo3 : Mo.all Char.isDigit = true)
    (hDa1 : 1 ≤ Da.length) (hDa2 : Da.length ≤ 2) (hDa3 : Da.all Char.isDigit = true)
    (hH1 : 1 ≤ H.length) (hH2 : H.length ≤ 2) (hH3 : H.all Char.isDigit = true)
    (hMi1 : 1 ≤ Mi.length) (hMi2 : Mi.length ≤ 2) (hMi3 : Mi.all Char.isDigit = true)
    (hS1 : 1 ≤ S.length) (hS2 : S.length ≤ 2) (hS3 : S.all Char.isDigit = true)
    (hF : F.all Char.isDigit = true) :
    parseCustomDateStringISO
        (Y ++ '-' :: Mo ++ '-' :: Da ++ ' ' :: H ++ ':' :: Mi ++ ':' :: S ++ '.' :: F)
      = some (Y ++ '-' :: padStart2 Mo ++ '-' :: padStart2 Da
              ++ 'T' :: padStart2 H ++ ':' :: padStart2 Mi ++ ':' :: padStart2 S ++ ['Z'])
    ∧ parseCustomDateString
        (Y ++ '-' :: Mo ++ '-' :: Da ++ ' ' :: H ++ ':' :: Mi ++ ':' :: S ++ '.' :: F)
      = some { year := digitsToNat Y, month := digitsToNat Mo, day := digitsToNat Da,
               hour := digitsToNat H, minute := digitsToNat Mi, second := digitsToNat S,
               millisecond := 0, utc := true } := by
  have pMo3 := padStart2_digits Mo hMo3
  have pDa3 := padStart2_digits Da hDa3
  have pH3 := padStart2_digits H hH3
  have pMi3 := padStart2_digits Mi hMi3
  have pS3 := padStart2_digits S hS3
  have nsp1 : ' ' ∉ Y ++ '-' :: (Mo ++ '-' :: Da) :=
    not_mem_append ' ' Y _ (digit_not_mem ' ' (by decide) Y hY2)
      (not_mem_cons ' ' '-' _ (by decide)
        (not_mem_append ' ' Mo _ (digit_not_mem ' ' (by decide) Mo hMo3)
          (not_mem_cons ' ' '-' _ (by decide)
            (digit_not_mem ' ' (by decide) Da hDa3))))
  have nsp2 : ' ' ∉ H ++ ':' :: (Mi ++ ':' :: (S ++ '.' :: F)) :=
    not_mem_append ' ' H _ (digit_not_mem ' ' (by decide) H hH3)
      (not_mem_cons ' ' ':' _ (by decide)
        (not_mem_append ' ' Mi _ (digit_not_mem ' ' (by decide) Mi hMi3)
          (not_mem_cons ' ' ':' _ (by decide)
            (not_mem_append ' ' S _ (digit_not_mem ' ' (by decide) S hS3)
              (not_mem_cons ' ' '.' _ (by decide)
                (digit_not_mem ' ' (by decide) F hF))))))
  have e0 : (Y ++ '-' :: Mo ++ '-' :: Da ++ ' ' :: H ++ ':' :: Mi ++ ':' :: S ++ '.' :: F)
      = (Y ++ '-' :: (Mo ++ '-' :: Da))
          ++ ' ' :: (H ++ ':' :: (Mi ++ ':' :: (S ++ '.' :: F))) := by
    simp [List.append_assoc, List.cons_append]
  have se1 : splitOnChar ' '
        (Y ++ '-' :: Mo ++ '-' :: Da ++ ' ' :: H ++ ':' :: Mi ++ ':' :: S ++ '.' :: F)
      = (Y ++ '-' :: (Mo ++ '-' :: Da))
          :: [H ++ ':' :: (Mi ++ ':' :: (S ++ '.' :: F))] := by
    rw [e0, splitOnChar_append ' ' _ _ nsp1, splitOnChar_no_sep ' ' _ nsp2]
  have se2 : splitOnChar '-' (Y ++ '-' :: (Mo ++ '-' :: Da)) = [Y, Mo, Da] := by
    rw [splitOnChar_append '-' Y _ (digit_not_mem '-' (by decide) Y hY2),
        splitOnChar_append '-' Mo _ (digit_not_mem '-' (by decide) Mo hMo3),
        splitOnChar_no_sep '-' Da (digit_not_mem '-' (by decide) Da hDa3)]
  have nc1 : ':' ∉ S ++ '.' :: F :=
    not_mem_append ':' S _ (digit_not_mem ':' (by decide) S hS3)
      (not_mem_cons ':' '.' _ (by decide) (digit_not_mem ':' (by decide) F hF))
  have se3 : splitOnChar ':' (H ++ ':' :: (Mi ++ ':' :: (S ++ '.' :: F)))
      = [H, Mi, S ++ '.' :: F] := by
    rw [splitOnChar_append ':' H _ (digit_not_mem ':' (by decide) H hH3),
        splitOnChar_append ':' Mi _ (digit_not_mem ':' (by decide) Mi hMi3),
        splitOnChar_no_sep ':' _ nc1]
  have se4 : splitOnChar '.' (S ++ '.' :: F) = [S, F] := by
    rw [splitOnChar_append '.' S _ (digit_not_mem '.' (by decide) S hS3),
        splitOnChar_no_sep '.' F (digit_not_mem '.' (by decide) F hF)]
  have hiso : parseCustomDateStringISO
        (Y ++ '-' :: Mo ++ '-' :: Da ++ ' ' :: H ++ ':' :: Mi ++ ':' :: S ++ '.' :: F)
      = some (Y ++ '-' :: padStart2 Mo ++ '-' :: padStart2 Da
              ++ 'T' :: padStart2 H ++ ':' :: padStart2 Mi ++ ':' :: padStart2 S
              ++ ['Z']) := by
    simp only [parseCustomDateStringISO, se1, se2, se3, se4]
  have nT1 : 'T' ∉ Y ++ '-' :: (padStart2 Mo ++ '-' :: padStart2 Da) :=
    not_mem_append 'T' Y _ (digit_not_mem 'T' (by decide) Y hY2)
      (not_mem_cons 'T' '-' _ (by decide)
        (not_mem_append 'T' _ _ (digit_not_mem 'T' (by decide) _ pMo3)
          (not_mem_cons 'T' '-' _ (by decide)
            (digit_not_mem 'T' (by decide) _ pDa3))))
  have nTX : 'T' ∉ padStart2 H ++ ':' :: (padStart2 Mi ++ ':' :: padStart2 S) :=
    not_mem_append 'T' _ _ (digit_not_mem 'T' (by decide) _ pH3)
      (not_mem_cons 'T' ':' _ (by decide)
        (not_mem_append 'T' _ _ (digit_not_mem 'T' (by decide) _ pMi3)
          (not_mem_cons 'T' ':' _ (by decide)
            (digit_not_mem 'T' (by decide) _ pS3))))
  have nT2 : 'T' ∉ (padStart2 H ++ ':' :: (padStart2 Mi ++ ':' :: padStart2 S)) ++ ['Z'] :=
    not_mem_append 'T' _ _ nTX
      (not_mem_cons 'T' 'Z' _ (by decide) (List.not_mem_nil 'T'))
  have f0 : (Y ++ '-' :: padStart2 Mo ++ '-' :: padStart2 Da
              ++ 'T' :: padStart2 H ++ ':' :: padStart2 Mi ++ ':' :: padStart2 S
              ++ ['Z'])
      = (Y ++ '-' :: (padStart2 Mo ++ '-' :: padStart2 Da))
          ++ 'T' :: ((padStart2 H ++ ':' :: (padStart2 Mi ++ ':' :: padStart2 S))
              ++ ['Z']) := by
    simp [List.append_assoc, List.cons_append]
  have sf1 : splitOnChar 'T'
        (Y ++ '-' :: padStart2 Mo ++ '-' :: padStart2 Da
          ++ 'T' :: padStart2 H ++ ':' :: padStart2 Mi ++ ':' :: padStart2 S ++ ['Z'])
      = (Y ++ '-' :: (padStart2 Mo ++ '-' :: padStart2 Da))
          :: [(padStart2 H ++ ':' :: (padStart2 Mi ++ ':' :: padStart2 S)) ++ ['Z']] := by
    rw [f0, splitOnChar_append 'T' _ _ nT1, splitOnChar_no_sep 'T' _ nT2]
  have sf2 : splitOnChar '-' (Y ++ '-' :: (padStart2 Mo ++ '-' :: padStart2 Da))
      = [Y, padStart2 Mo, padStart2 Da] := by
    rw [splitOnChar_append '-' Y _ (digit_not_mem '-' (by decide) Y hY2),
        splitOnChar_append '-' _ _ (digit_not_mem '-' (by decide) _ pMo3),
        splitOnChar_no_sep '-' _ (digit_not_mem '-' (by decide) _ pDa3)]
  have f4 : (((padStart2 H ++ ':' :: (padStart2 Mi ++ ':' :: padStart2 S))
        ++ ['Z']) : List Char).reverse
      = 'Z' :: (padStart2 H ++ ':' :: (padStart2 Mi ++ ':' :: padStart2 S)).reverse := by
    rw [List.reverse_append]
    rfl
  have sf5 : splitOnChar ':' (padStart2 H ++ ':' :: (padStart2 Mi ++ ':' :: padStart2 S))
      = [padStart2 H, padStart2 Mi, padStart2 S] := by
    rw [splitOnChar_append ':' _ _ (digit_not_mem ':' (by decide) _ pH3),
        splitOnChar_append ':' _ _ (digit_not_mem ':' (by decide) _ pMi3),
        splitOnChar_no_sep ':' _ (digit_not_mem ':' (by decide) _ pS3)]
  have sf6 : splitOnChar '.' (padStart2 S) = [padStart2 S] :=
    splitOnChar_no_sep '.' _ (digit_not_mem '.' (by decide) _ pS3)
  have gd : Y.length = 4 ∧ Y.all Char.isDigit = true
      ∧ (padStart2 Mo).length = 2 ∧ (padStart2 Mo).all Char.isDigit = true
      ∧ (padStart2 Da).length = 2 ∧ (padStart2 Da).all Char.isDigit = true :=
    ⟨hY1, hY2, padStart2_length Mo hMo2, pMo3, padStart2_length Da hDa2, pDa3⟩
  have gt : (padStart2 H).length = 2 ∧ (padStart2 H).all Char.isDigit = true
      ∧ (padStart2 Mi).length = 2 ∧ (padStart2 Mi).all Char.isDigit = true
      ∧ (padStart2 S).length = 2 ∧ (padStart2 S).all Char.isDigit = true :=
    ⟨padStart2_length H hH2, pH3, padStart2_length Mi hMi2, pMi3,
     padStart2_length S hS2, pS3⟩
  have hjs : jsDateFromISO
        (Y ++ '-' :: padStart2 Mo ++ '-' :: padStart2 Da
          ++ 'T' :: padStart2 H ++ ':' :: padStart2 Mi ++ ':' :: padStart2 S ++ ['Z'])
      = some { year := digitsToNat Y, month := digitsToNat Mo, day := digitsToNat Da,
               hour := digitsToNat H, minute := digitsToNat Mi,
               second := digitsToNat S, millisecond := 0, utc := true } := by
    simp only [jsDateFromISO, sf1]
    simp only [sf2]
    rw [if_pos gd]
    simp only [f4]
    simp only [List.reverse_reverse]
    simp only [sf5]
    simp only [sf6]
    rw [if_pos gt]
    simp only [digitsToNat_pad]
  refine ⟨hiso, ?_⟩
  unfold parseCustomDateString
  rw [hiso]
  exact hjs

end FormatDate

namespace FormatDate

theorem parse_custom_date_utc_truncation_witness :
    parseCustomDateStringISO
        (['2', '0', '2', '4'] ++ '-' :: ['3'] ++ '-' :: ['7']
          ++ ' ' :: ['9'] ++ ':' :: ['5'] ++ ':' :: ['3'] ++ '.' :: ['1', '2', '3'])
      = some (['2', '0', '2', '4'] ++ '-' :: padStart2 ['3'] ++ '-' :: padStart2 ['7']
              ++ 'T' :: padStart2 ['9'] ++ ':' :: padStart2 ['5']
              ++ ':' :: padStart2 ['3'] ++ ['Z'])
    ∧ parseCustomDateString
        (['2', '0', '2', '4'] ++ '-' :: ['3'] ++ '-' :: ['7']
          ++ ' ' :: ['9'] ++ ':' :: ['5'] ++ ':' :: ['3'] ++ '.' :: ['1', '2', '3'])
      = some { year := digitsToNat ['2', '0', '2', '4'], month := digitsToNat ['3'],
               day := digitsToNat ['7'], hour := digitsToNat ['9'],
               minute := digitsToNat ['5'], second := digitsToNat ['3'],
               millisecond := 0, utc := true } :=
  parse_custom_date_utc_truncation ['2', '0', '2', '4'] ['3'] ['7'] ['9'] ['5'] ['3']
    ['1', '2', '3'] (by decide) (by decide) (by decide) (by decide) (by decide)
    (by decide) (by decide) (by decide) (by decide) (by decide) (by decide)
    (by decide) (by decide) (by decide) (by decide) (by decide) (by decide)
    (by decide)

end FormatDate
